import Mathlib

/-!
Formal model of the video-summarizer pipeline (thegupta1694/Pipeline-1.0).

The Python sources `pipeline.py`, `app.py` and `templates/app.py` are embedded
shallowly: pure helper functions become Lean functions over `List Char` /
`String`, filesystem state becomes an association list from paths to file
data, and the external collaborators (ffmpeg, whisper, the Gemini call, the
hash function) are passed in as an `Oracles` bundle of plain functions.
Fallible Python operations (code paths that raise) are modelled with
`Option` / `Except`.
-/

/-- Python `str.strip()` whitespace set restricted to ASCII (space, tab,
newline, carriage return, vertical tab, form feed). -/
def isAsciiWs (c : Char) : Bool :=
  c == ' ' || c == '\t' || c == '\n' || c == '\r' || c == '\x0b' || c == '\x0c'

/-- Drop leading and trailing characters satisfying `p` (both-ends strip). -/
def stripWhile (p : Char → Bool) (l : List Char) : List Char :=
  ((l.dropWhile p).reverse.dropWhile p).reverse

/-- Model of Python `str.strip()` (no argument): strip ASCII whitespace. -/
def pyStripWs (s : String) : String := ⟨stripWhile isAsciiWs s.data⟩

/-- Model of Python `str.strip('[] ')` used on timestamp fields in
`extract_events_with_llm` (pipeline.py lines 182-183). -/
def pyStripBrackets (s : String) : String :=
  ⟨stripWhile (fun c => c == '[' || c == ']' || c == ' ') s.data⟩

/-- Model of Python `str.lower()` (ASCII). -/
def pyLower (s : String) : String := ⟨s.data.map Char.toLower⟩

/-- Model of Python `str.upper()` (ASCII). -/
def pyUpper (s : String) : String := ⟨s.data.map Char.toUpper⟩

/-- Model of Python `str.capitalize()`: first character upper-cased, all
remaining characters lower-cased. -/
def pyCapitalize (s : String) : String :=
  match s.data with
  | [] => ""
  | c :: rest => ⟨c.toUpper :: rest.map Char.toLower⟩

/-- Model of Python `str.replace(a, b)` for single-character arguments. -/
def pyReplaceChar (s : String) (a b : Char) : String :=
  ⟨s.data.map (fun c => if c == a then b else c)⟩

/-- Model of Python `str.split(sep)` for a single-character separator. -/
def splitOnChar (sep : Char) : List Char → List (List Char)
  | [] => [[]]
  | c :: rest =>
    if c == sep then [] :: splitOnChar sep rest
    else
      match splitOnChar sep rest with
      | [] => [[c]]
      | g :: gs => (c :: g) :: gs

/-- First occurrence of `sep` in a character list: the part before it and the
part after it, or `none` if `sep` does not occur. -/
def findSplit (sep : List Char) : List Char → Option (List Char × List Char)
  | [] => none
  | c :: rest =>
    if sep.isPrefixOf (c :: rest) then some ([], (c :: rest).drop sep.length)
    else
      match findSplit sep rest with
      | some (pre, post) => some (c :: pre, post)
      | none => none

/-- Model of Python `str.split(sep, maxsplit)`: split on at most the first
`n` occurrences of `sep`. -/
def pySplitN (sep : List Char) : Nat → List Char → List (List Char)
  | 0, s => [s]
  | n + 1, s =>
    match findSplit sep s with
    | none => [s]
    | some (pre, post) => pre :: pySplitN sep n post

/-- Decimal value of a digit run, ignoring `_` group separators. -/
def digitsVal (l : List Char) : Nat :=
  l.foldl (fun acc c => if c == '_' then acc else acc * 10 + (c.toNat - 48)) 0

/-- Validity of the digit part of a Python integer literal: non-empty, no
leading/trailing underscore, no doubled underscore, only digits and `_`. -/
def validDigits (l : List Char) : Bool :=
  !l.isEmpty && l.head? != some '_' && l.getLast? != some '_' &&
  l.all (fun c => c.isDigit || c == '_') &&
  (l.zip l.tail).all (fun p => !(p.1 == '_' && p.2 == '_'))

/-- Parse an unsigned Python digit run ( `int()` after sign handling). -/
def pyDigits (l : List Char) : Option Nat :=
  if validDigits l then some (digitsVal l) else none

/-- Model of Python `int(str)`: strip whitespace, optional sign, digit run
(with `_` separators); `none` models a raised `ValueError`. -/
def pyIntOfChars (l : List Char) : Option Int :=
  match stripWhile isAsciiWs l with
  | [] => none
  | c :: rest =>
    if c == '+' then (pyDigits rest).map (fun n => (n : Int))
    else if c == '-' then (pyDigits rest).map (fun n => -(n : Int))
    else (pyDigits (c :: rest)).map (fun n => (n : Int))

/-- `time_to_seconds` (pipeline.py lines 29-32):
`h, m, s = map(int, time_str.split(':')); return h*3600 + m*60 + s`.
`none` models the exception raised when there are not exactly three
colon-separated fields or a field is not an integer. `timeFields` is the
body applied once the split has produced exactly three fields. -/
def timeFields (a b c : List Char) : Option Int :=
  match pyIntOfChars a, pyIntOfChars b, pyIntOfChars c with
  | some h, some m, some s => some (h * 3600 + m * 60 + s)
  | _, _, _ => none

def time_to_seconds (t : String) : Option Int :=
  match splitOnChar ':' t.data with
  | [a, b, c] => timeFields a b c
  | _ => none

/-- Decimal digits of `n`, most significant first, with explicit fuel so the
definition is structural (kernel-reducible). Adequate whenever `n < fuel`. -/
def decDigitsAux : Nat → Nat → List Char
  | 0, _ => []
  | fuel + 1, n =>
    if n < 10 then [Nat.digitChar n]
    else decDigitsAux fuel (n / 10) ++ [Nat.digitChar (n % 10)]

/-- Decimal digits of `n`, most significant first. -/
def decDigits (n : Nat) : List Char := decDigitsAux (n + 1) n

/-- Model of Python `str(n)` for a natural number. -/
def natToDec (n : Nat) : String := ⟨decDigits n⟩

/-- Two-digit zero-padded field, as in `%02d` of `str(datetime.timedelta)`. -/
def pad2 (n : Nat) : List Char := if n < 10 then '0' :: decDigits n else decDigits n

/-- Model of Python `str(datetime.timedelta(seconds=n))` for integer
`n ≥ 0`: `h:mm:ss`, prefixed by `d day(s), ` when `n ≥ 86400`.  This is the
timestamp formatter used by `format_transcript_with_timestamps`
(pipeline.py line 108). -/
def formatTimedelta (n : Nat) : String :=
  if n / 86400 == 0 then
    ⟨decDigits (n % 86400 / 3600) ++ ':' :: pad2 (n % 3600 / 60) ++ ':' :: pad2 (n % 60)⟩
  else
    ⟨decDigits (n / 86400) ++
      (if n / 86400 == 1 then " day, ".data else " days, ".data) ++
      (decDigits (n % 86400 / 3600) ++ ':' :: pad2 (n % 3600 / 60) ++ ':' :: pad2 (n % 60))⟩

/-- A canonical well-formed `hh:mm:ss` string with two-digit fields. -/
def hmsString (h m s : Nat) : String :=
  ⟨pad2 h ++ ':' :: pad2 m ++ ':' :: pad2 s⟩

/-- Lexicographic comparison of character lists by code point, as used by
Python string ordering in `sorted(...)`. -/
def lexLe : List Char → List Char → Bool
  | [], _ => true
  | _ :: _, [] => false
  | a :: as, b :: bs => if a < b then true else if b < a then false else lexLe as bs

/-- Python string `<=` (code-point lexicographic). -/
def pyStrLe (a b : String) : Bool := lexLe a.data b.data

/-- Insert into a sorted list of strings (stable). -/
def insertSorted (x : String) : List String → List String
  | [] => [x]
  | y :: ys => if pyStrLe x y then x :: y :: ys else y :: insertSorted x ys

/-- Model of Python `sorted(...)` on strings (stable insertion sort). -/
def sortStrings : List String → List String
  | [] => []
  | x :: xs => insertSorted x (sortStrings xs)

/-- Model of Python `str.endswith(suf)`. -/
def endsWithStr (suf s : String) : Bool := suf.data.isSuffixOf s.data

/-- Model of `os.path.dirname`: everything before the last `/`, or the empty
string when there is no `/`. -/
def dirname (p : String) : String :=
  match p.data.reverse.dropWhile (fun c => !(c == '/')) with
  | [] => ""
  | _ :: rest => ⟨rest.reverse⟩

/-- An event record produced by the detector-response parser
(`extract_events_with_llm`, pipeline.py lines 181-187). -/
structure EventRec where
  start_timestamp : String
  end_timestamp : String
  team : String
  event_type : String
  description : String
deriving DecidableEq, Repr

/-- The literal field separator `" - "` of the event line protocol. -/
def eventSep : List Char := [' ', '-', ' ']

/-- Parsing of one line of the detector response (pipeline.py lines 173-189):
strip the line, skip it when blank, split on the first four occurrences of
`" - "`, keep it only when exactly five fields result, stripping `'[] '`
from the two timestamp fields. -/
def parseEventLine (rawLine : String) : Option EventRec :=
  if pyStripWs rawLine = "" then none
  else
    match pySplitN eventSep 4 (pyStripWs rawLine).data with
    | [a, b, c, d, e] =>
      some ⟨pyStripBrackets ⟨a⟩, pyStripBrackets ⟨b⟩, ⟨c⟩, ⟨d⟩, ⟨e⟩⟩
    | _ => none

/-- The parser loop of `extract_events_with_llm` (pipeline.py lines 171-192):
lines are processed in order, malformed lines are skipped. -/
def parseLines : List String → List EventRec
  | [] => []
  | l :: ls =>
    match parseEventLine l with
    | some r => r :: parseLines ls
    | none => parseLines ls

/-- The parsing stage of `extract_events_with_llm` applied to the raw
response text: `response.text.strip().split('\n')`, then the per-line loop. -/
def extract_events_from_response (resp : String) : List EventRec :=
  parseLines ((splitOnChar '\n' (stripWhile isAsciiWs resp.data)).map (fun l => ⟨l⟩))

/-- The `event_data_for_overlay` dictionary built in `create_clips_from_events`
(pipeline.py lines 234-238). -/
structure OverlayData where
  type : String
  team_name : String
  description : String
deriving DecidableEq, Repr

/-- `get_event_overlay_config` (pipeline.py lines 35-65): fixed lookup table
keyed on the capitalized event type, with a default entry for every other
type. Returns `(text, box_color)`. -/
def get_event_overlay_config (d : OverlayData) : String × String :=
  if d.type = "Goal" then ("GOAL by " ++ pyUpper d.team_name, "red@0.5")
  else if d.type = "Foul" then ("FOUL: " ++ d.description, "yellow@0.5")
  else if d.type = "Replacement" then ("SUBSTITUTION: " ++ d.description, "blue@0.5")
  else if d.type = "Missed goal" then ("MISSED CHANCE: " ++ pyUpper d.team_name, "orange@0.5")
  else (pyUpper d.type ++ ": " ++ d.description, "white@0.5")

/-- Overlay selection as performed per event in `create_clips_from_events`
(pipeline.py lines 234-239): the event type is first normalized with
`str.capitalize()`. -/
def overlayFor (t team desc : String) : String × String :=
  get_event_overlay_config ⟨pyCapitalize t, team, desc⟩

/-- The plan for one clip: 1-based index, deterministic filename, start
offset and duration in seconds, overlay text and box color. -/
structure Clip where
  idx : Nat
  filename : String
  start : Int
  duration : Int
  text : String
  box_color : String
deriving DecidableEq, Repr

/-- Per-event body of the loop in `create_clips_from_events` (pipeline.py
lines 218-239): convert both timestamps (an exception gives `none` and the
loop continues), drop the event when `duration <= 0`, otherwise build the
filename `clip_{i+1}_{type with spaces replaced, lower-cased}.mp4` and the
overlay. `i` is the 0-based `enumerate` index over all events. -/
def planEvent (i : Nat) (e : EventRec) : Option Clip :=
  match time_to_seconds e.start_timestamp, time_to_seconds e.end_timestamp with
  | some ss, some es =>
    let dur := es - ss
    if dur ≤ 0 then none
    else
      some ⟨i + 1,
            "clip_" ++ natToDec (i + 1) ++ "_" ++
              pyLower (pyReplaceChar e.event_type ' ' '_') ++ ".mp4",
            ss, dur,
            (overlayFor e.event_type e.team e.description).1,
            (overlayFor e.event_type e.team e.description).2⟩
  | _, _ => none

/-- The `for i, event in enumerate(events)` loop of
`create_clips_from_events`: events that raise or have non-positive duration
are skipped, the rest produce clips in input order. -/
def planAux (i : Nat) : List EventRec → List Clip
  | [] => []
  | e :: rest =>
    match planEvent i e with
    | some c => c :: planAux (i + 1) rest
    | none => planAux (i + 1) rest

/-- The clip plan of `create_clips_from_events` for an event list. -/
def create_clips_plan (events : List EventRec) : List Clip := planAux 0 events

/-- Output paths of `transcribe_audio` (pipeline.py lines 88-90): both
transcript files are written into `os.path.dirname(audio_path)`. -/
def transcribe_txt_path (audio_path : String) : String :=
  dirname audio_path ++ "/transcript.txt"

/-- Second output path of `transcribe_audio` (pipeline.py line 90). -/
def transcribe_json_path (audio_path : String) : String :=
  dirname audio_path ++ "/transcript.json"

/-- Clips directory of `create_clips_from_events` (pipeline.py line 214):
`os.path.join(os.path.dirname(events_path), "clips")`. -/
def clips_dir_of (events_path : String) : String :=
  dirname events_path ++ "/clips"

/-- Summary path of `stitch_clips` (pipeline.py lines 308, 316): the task
directory is `dirname(dirname(first clip path))` and the summary is written
directly there. -/
def stitch_summary_path (firstClip : String) : String :=
  dirname (dirname firstClip) ++ "/summary.mp4"

/-- Abstract file contents: `raw` is any file (or a file that does not parse
as JSON) of a given byte size; `jlist` is a JSON file holding an event list,
as written by stage 3 of `run_pipeline`. -/
inductive FData where
  | raw (sz : Nat)
  | jlist (evs : List EventRec) (sz : Nat)
deriving DecidableEq, Repr

/-- Byte size of a file (`os.path.getsize`). -/
def FData.size : FData → Nat
  | .raw n => n
  | .jlist _ n => n

/-- Whether `json.load` succeeds on the file. -/
def FData.jsonParses : FData → Bool
  | .raw _ => false
  | .jlist _ _ => true

/-- A filesystem: association list from paths to file data, newest entry
first, with unique keys maintained by `fsSet`. -/
abbrev FS := List (String × FData)

/-- Look up a path. -/
def fsGet (fs : FS) (p : String) : Option FData :=
  (fs.find? (fun e => e.1 == p)).map (fun e => e.2)

/-- Write (create or overwrite) a file. -/
def fsSet (fs : FS) (p : String) (d : FData) : FS :=
  (p, d) :: fs.filter (fun e => !(e.1 == p))

/-- `os.path.exists`. -/
def fsExists (fs : FS) (p : String) : Bool := (fsGet fs p).isSome

/-- The name of `p` relative to `dir` when `p` is a direct child of `dir`. -/
def childNameOpt (dir p : String) : Option String :=
  if (dir ++ "/").data.isPrefixOf p.data then
    let rest : List Char := p.data.drop (dir ++ "/").data.length
    if rest.isEmpty || rest.contains '/' then none else some ⟨rest⟩
  else none

/-- `os.listdir dir`: names of the direct children of `dir`. -/
def listdir (fs : FS) (dir : String) : List String :=
  fs.filterMap (fun e => childNameOpt dir e.1)

/-- `check_file_integrity` (pipeline.py lines 364-376): the file exists, has
non-zero size, and, when its name ends in `.json`, parses as JSON. -/
def check_file_integrity (fs : FS) (p : String) : Bool :=
  match fsGet fs p with
  | none => false
  | some fd =>
    if fd.size == 0 then false
    else if endsWithStr ".json" p then fd.jsonParses
    else true

/-- The external collaborators of the pipeline, as opaque deterministic
functions: the content hash of the video (videos are identified by their
byte content, abstracted to a `Nat`), the audio extractor, the transcriber,
the Gemini event-detection call, the per-clip ffmpeg cut, and the ffmpeg
concat step. -/
structure Oracles where
  hashFn : Nat → String
  audioOracle : Nat → Option FData
  transOracle : FData → Option (FData × FData)
  geminiOracle : Option FData → Option String
  clipOracle : Nat → Clip → Bool
  clipData : Nat → Clip → FData
  stitchOracle : Nat → List String → Option FData

/-- `run_pipeline` cache directory (pipeline.py lines 388-389):
`uploads/cache/<sha256 of the video bytes>`. -/
def cacheDirOf (O : Oracles) (v : Nat) : String :=
  "uploads/cache/" ++ O.hashFn v

/-- Result of one stage: the filesystem afterwards and whether the stage body
ran (`false` = cache hit branch taken). -/
structure StageOut where
  fs : FS
  ran : Bool
deriving DecidableEq, Repr

/-- Stage 1 of `run_pipeline` (pipeline.py lines 392-409): skipped iff
`os.path.exists(cache_dir/audio.wav)`; otherwise `extract_audio` runs and a
successful result is `os.replace`d to the cache path. -/
def runStage1 (O : Oracles) (fs : FS) (v : Nat) : StageOut :=
  let ap := cacheDirOf O v ++ "/audio.wav"
  if fsExists fs ap then ⟨fs, false⟩
  else
    match O.audioOracle v with
    | some a => ⟨fsSet fs ap a, true⟩
    | none => ⟨fs, true⟩

/-- Stage 2 of `run_pipeline` (pipeline.py lines 411-431): skipped iff both
transcript files exist; otherwise `transcribe_audio(cache_dir/audio.wav)`
runs (failing when the audio file is absent) and both outputs are
`os.replace`d to the cache paths. -/
def runStage2 (O : Oracles) (fs : FS) (v : Nat) : StageOut :=
  let cd := cacheDirOf O v
  let tp := cd ++ "/transcript.txt"
  let jp := cd ++ "/transcript.json"
  if fsExists fs tp && fsExists fs jp then ⟨fs, false⟩
  else
    match fsGet fs (cd ++ "/audio.wav") with
    | none => ⟨fs, true⟩
    | some a =>
      match O.transOracle a with
      | some (t, j) => ⟨fsSet (fsSet fs tp t) jp j, true⟩
      | none => ⟨fs, true⟩

/-- Stage 3 of `run_pipeline` (pipeline.py lines 433-451): skipped iff
`events.json` exists; otherwise the transcript is formatted, the detector is
called, its response is parsed, and — because of `if events:` — the result
is written to `events.json` only when the parsed list is non-empty. -/
def runStage3 (O : Oracles) (fs : FS) (v : Nat) : StageOut :=
  let cd := cacheDirOf O v
  let ep := cd ++ "/events.json"
  if fsExists fs ep then ⟨fs, false⟩
  else
    match O.geminiOracle (fsGet fs (cd ++ "/transcript.json")) with
    | some raw =>
      let evs := extract_events_from_response raw
      if evs.isEmpty then ⟨fs, true⟩
      else ⟨fsSet fs ep (.jlist evs (2 + evs.length)), true⟩
    | none => ⟨fs, true⟩

/-- The unconditional read of `events.json` after stage 3 (pipeline.py lines
452-453): `open` raises `FileNotFoundError` when the file is absent and
`json.load` raises `JSONDecodeError` when it does not parse. -/
def loadEvents (fs : FS) (cd : String) : Except String (List EventRec) :=
  match fsGet fs (cd ++ "/events.json") with
  | none => .error "FileNotFoundError: events.json"
  | some (.raw _) => .error "JSONDecodeError: events.json"
  | some (.jlist evs _) => .ok evs

/-- Stage 4 of `run_pipeline` (pipeline.py lines 456-476): skipped iff
`os.listdir(cache_dir/clips)` is non-empty; otherwise
`create_clips_from_events` writes each successfully cut clip into
`dirname(events_path)/clips` — the cache clips directory itself.  In either
case the stitch input list is rebuilt as the lexicographically sorted `.mp4`
names of the clips directory (line 475). -/
def runStage4 (O : Oracles) (fs : FS) (v : Nat) (evs : List EventRec) :
    StageOut × List String :=
  let cld := cacheDirOf O v ++ "/clips"
  let st :=
    if (listdir fs cld).isEmpty then
      let created := (planAux 0 evs).filter (fun c => O.clipOracle v c)
      ⟨created.foldl (fun acc c => fsSet acc (cld ++ "/" ++ c.filename) (O.clipData v c)) fs,
       true⟩
    else (⟨fs, false⟩ : StageOut)
  (st, ((sortStrings (listdir st.fs cld)).filter (fun f => endsWithStr ".mp4" f)).map
        (fun f => cld ++ "/" ++ f))

/-- Stage 5 of `run_pipeline` (pipeline.py lines 478-495): skipped iff
`summary.mp4` exists; `stitch_clips` returns `None` on an empty clip list
without writing anything, otherwise the concat output is written at the
summary path. -/
def runStage5 (O : Oracles) (fs : FS) (v : Nat) (clips : List String) : StageOut :=
  let sp := cacheDirOf O v ++ "/summary.mp4"
  if fsExists fs sp then ⟨fs, false⟩
  else
    match clips with
    | [] => ⟨fs, true⟩
    | _ :: _ =>
      match O.stitchOracle v clips with
      | some d => ⟨fsSet fs sp d, true⟩
      | none => ⟨fs, true⟩

/-- The `results` dictionary of `run_pipeline` plus the per-stage cache-hit
trace (`ran[i] = false` means stage `i+1` took its cache branch). -/
structure RunPaths where
  cacheDir : String
  audio_path : String
  txt_path : String
  json_path : String
  events : List EventRec
  clips : List String
  summary_path : String
  ran : List Bool
deriving DecidableEq, Repr

/-- `run_pipeline` (pipeline.py lines 379-498): the five cached stages in
order, with the unconditional `events.json` read between stages 3 and 4.
`.error` models an uncaught exception escaping `run_pipeline`. The task
identifier is never used in any cache path. -/
def run_pipeline (O : Oracles) (fs : FS) (v : Nat) (_tid : String) :
    Except String (FS × RunPaths) :=
  let cd := cacheDirOf O v
  let s1 := runStage1 O fs v
  let s2 := runStage2 O s1.fs v
  let s3 := runStage3 O s2.fs v
  match loadEvents s3.fs cd with
  | .error e => .error e
  | .ok evs =>
    let p4 := runStage4 O s3.fs v evs
    let s5 := runStage5 O p4.1.fs v p4.2
    .ok (s5.fs,
      { cacheDir := cd
        audio_path := cd ++ "/audio.wav"
        txt_path := cd ++ "/transcript.txt"
        json_path := cd ++ "/transcript.json"
        events := evs
        clips := p4.2
        summary_path := cd ++ "/summary.mp4"
        ran := [s1.ran, s2.ran, s3.ran, p4.1.ran, s5.ran] })

/-- The status written by `process_with_pipeline` (app.py lines 30-49): an
exception from `run_pipeline` becomes an `"Error: ..."` status; otherwise
the status is `"Error: ..."` when `results['summary_path']` is falsy and
`"Complete"` otherwise (the path string itself, not the file, is tested). -/
def process_status (r : Except String (FS × RunPaths)) : String :=
  match r with
  | .error e => "Error: " ++ e
  | .ok (_, res) =>
    if res.summary_path = "" then "Error: Pipeline failed to produce summary video."
    else "Complete"

/-- All five cache artifacts of a video are present in the cache entry (the
clip stage's artifact being a non-empty clips directory). -/
def allCached (cd : String) (fs : FS) : Bool :=
  fsExists fs (cd ++ "/audio.wav") &&
  fsExists fs (cd ++ "/transcript.txt") &&
  fsExists fs (cd ++ "/transcript.json") &&
  fsExists fs (cd ++ "/events.json") &&
  !(listdir fs (cd ++ "/clips")).isEmpty &&
  fsExists fs (cd ++ "/summary.mp4")

/-- A transcriber segment: start offset in seconds (already truncated by
`int(segment['start'])`) and text. -/
structure Segment where
  start : Nat
  text : String
deriving DecidableEq, Repr

/-- `format_transcript_with_timestamps` (pipeline.py lines 101-111) applied
to an already-parsed segment list: one `[h:mm:ss] text` line per segment. -/
def format_transcript_with_timestamps (segs : List Segment) : String :=
  String.intercalate "\n"
    (segs.map (fun sg => "[" ++ formatTimedelta sg.start ++ "] " ++ pyStripWs sg.text))

/-- Concrete collaborator bundle on which every external call succeeds and
the detector reports a single valid goal event. -/
def demoOracles : Oracles where
  hashFn := fun _ => "h"
  audioOracle := fun _ => some (.raw 1)
  transOracle := fun _ => some (.raw 1, .raw 1)
  geminiOracle := fun _ => some "00:00:01 - 00:00:05 - A - goal - x"
  clipOracle := fun _ _ => true
  clipData := fun _ _ => .raw 1
  stitchOracle := fun _ _ => some (.raw 1)

/-- Collaborator bundle whose detector succeeds but finds no events (the
response text is empty, so the parser returns the empty list). -/
def zeroEventOracles : Oracles :=
  { demoOracles with geminiOracle := fun _ => some "" }

/-- A detector response with ten well-formed goal lines. -/
def tenGoalLines : String :=
  "00:00:01 - 00:00:05 - A - goal - e1\n" ++
  "00:00:06 - 00:00:09 - A - goal - e2\n" ++
  "00:00:10 - 00:00:13 - A - goal - e3\n" ++
  "00:00:14 - 00:00:17 - A - goal - e4\n" ++
  "00:00:18 - 00:00:21 - A - goal - e5\n" ++
  "00:00:22 - 00:00:25 - A - goal - e6\n" ++
  "00:00:26 - 00:00:29 - A - goal - e7\n" ++
  "00:00:30 - 00:00:33 - A - goal - e8\n" ++
  "00:00:34 - 00:00:37 - A - goal - e9\n" ++
  "00:00:38 - 00:00:41 - A - goal - e10"

/-- Collaborator bundle whose detector reports ten valid goal events. -/
def tenEventOracles : Oracles :=
  { demoOracles with geminiOracle := fun _ => some tenGoalLines }

/-- A ten-line detector response whose fifth line has only two fields. -/
def tenLineResponse : String :=
  "00:00:01 - 00:00:05 - A - goal - e1\n" ++
  "00:00:06 - 00:00:09 - B - foul - e2\n" ++
  "00:00:10 - 00:00:13 - A - goal - e3\n" ++
  "00:00:14 - 00:00:17 - N/A - prologue - e4\n" ++
  "bad - line\n" ++
  "00:00:22 - 00:00:25 - B - replacement - e6\n" ++
  "00:00:26 - 00:00:29 - A - missed goal - e7\n" ++
  "00:00:30 - 00:00:33 - A - goal - e8\n" ++
  "00:00:34 - 00:00:37 - B - foul - e9\n" ++
  "00:00:38 - 00:00:41 - N/A - epilogue - e10"

theorem dropWhile_eq_self_of_neg {p : Char → Bool} {l : List Char}
    (h : ∀ c ∈ l, p c = false) : l.dropWhile p = l := by
  cases l with
  | nil => rfl
  | cons c rest => simp [List.dropWhile_cons, h c (List.mem_cons_self c rest)]

theorem stripWhile_eq_self_of_neg {p : Char → Bool} {l : List Char}
    (h : ∀ c ∈ l, p c = false) : stripWhile p l = l := by
  unfold stripWhile
  rw [dropWhile_eq_self_of_neg h,
      dropWhile_eq_self_of_neg (fun c hc => h c (List.mem_reverse.mp hc)),
      List.reverse_reverse]

theorem digitChar_isDigit {d : Nat} (h : d < 10) : (Nat.digitChar d).isDigit = true := by
  interval_cases d <;> decide

theorem digitChar_toNat {d : Nat} (h : d < 10) : (Nat.digitChar d).toNat = 48 + d := by
  interval_cases d <;> decide

theorem isDigit_ne {c x : Char} (h : c.isDigit = true) (hx : x.isDigit = false) : c ≠ x := by
  intro he
  subst he
  rw [hx] at h
  exact Bool.false_ne_true h

theorem isDigit_not_ws {c : Char} (h : c.isDigit = true) : isAsciiWs c = false := by
  by_contra hw
  rw [Bool.not_eq_false] at hw
  unfold isAsciiWs at hw
  simp only [Bool.or_eq_true, beq_iff_eq] at hw
  rcases hw with ((((rfl | rfl) | rfl) | rfl) | rfl) | rfl <;> simp at h

theorem isDigit_beq_false {c x : Char} (h : c.isDigit = true) (hx : x.isDigit = false) :
    (c == x) = false :=
  beq_eq_false_iff_ne.mpr (isDigit_ne h hx)

theorem validDigits_of_digits {l : List Char} (hne : l ≠ [])
    (h : ∀ c ∈ l, c.isDigit = true) : validDigits l = true := by
  unfold validDigits
  simp only [Bool.and_eq_true]
  refine ⟨⟨⟨⟨?_, ?_⟩, ?_⟩, ?_⟩, ?_⟩
  · cases l with
    | nil => exact absurd rfl hne
    | cons c rest => rfl
  · cases l with
    | nil => exact absurd rfl hne
    | cons c rest =>
      have : c ≠ '_' := isDigit_ne (h c (List.mem_cons_self c rest)) (by decide)
      simp [List.head?, this]
  · rw [List.getLast?_eq_getLast_of_ne_nil hne]
    have : l.getLast hne ≠ '_' :=
      isDigit_ne (h _ (List.getLast_mem hne)) (by decide)
    simp [this]
  · rw [List.all_eq_true]
    intro c hc
    simp [h c hc]
  · rw [List.all_eq_true]
    intro p hp
    have h1 : p.1 ∈ l := (List.of_mem_zip hp).1
    have : p.1 ≠ '_' := isDigit_ne (h _ h1) (by decide)
    simp [this]

theorem digitsVal_append_digit {l : List Char} {c : Char} (h : (c == '_') = false) :
    digitsVal (l ++ [c]) = digitsVal l * 10 + (c.toNat - 48) := by
  unfold digitsVal
  rw [List.foldl_append]
  simp only [List.foldl_cons, List.foldl_nil]
  rw [if_neg (by simp [h])]

theorem decDigitsAux_all_digit :
    ∀ fuel n : Nat, n < fuel → ∀ c ∈ decDigitsAux fuel n, c.isDigit = true := by
  intro fuel
  induction fuel with
  | zero => intro n hn; omega
  | succ f ih =>
    intro n _ c hc
    unfold decDigitsAux at hc
    by_cases h10 : n < 10
    · rw [if_pos h10] at hc
      simp only [List.mem_singleton] at hc
      subst hc
      exact digitChar_isDigit h10
    · rw [if_neg h10] at hc
      rcases List.mem_append.mp hc with h1 | h2
      · have hlt : n / 10 < f := by
          have := Nat.div_lt_self (by omega : 0 < n) (by omega : 1 < 10)
          omega
        exact ih (n / 10) hlt c h1
      · simp only [List.mem_singleton] at h2
        subst h2
        exact digitChar_isDigit (Nat.mod_lt n (by omega))

theorem decDigitsAux_ne_nil {fuel n : Nat} (h : n < fuel) : decDigitsAux fuel n ≠ [] := by
  cases fuel with
  | zero => omega
  | succ f =>
    unfold decDigitsAux
    by_cases h10 : n < 10
    · simp [h10]
    · rw [if_neg h10]
      simp

theorem digitsVal_decDigitsAux :
    ∀ fuel n : Nat, n < fuel → digitsVal (decDigitsAux fuel n) = n := by
  intro fuel
  induction fuel with
  | zero => intro n hn; omega
  | succ f ih =>
    intro n _
    unfold decDigitsAux
    by_cases h10 : n < 10
    · rw [if_pos h10]
      have hne : (Nat.digitChar n == '_') = false :=
        isDigit_beq_false (digitChar_isDigit h10) (by decide)
      unfold digitsVal
      simp only [List.foldl_cons, List.foldl_nil, hne, Bool.false_eq_true, if_false]
      rw [digitChar_toNat h10]
      omega
    · rw [if_neg h10]
      have hmod : n % 10 < 10 := Nat.mod_lt n (by omega)
      rw [digitsVal_append_digit (isDigit_beq_false (digitChar_isDigit hmod) (by decide))]
      have hlt : n / 10 < f := by
        have := Nat.div_lt_self (by omega : 0 < n) (by omega : 1 < 10)
        omega
      rw [ih (n / 10) hlt, digitChar_toNat hmod]
      omega

theorem decDigits_all_digit {n : Nat} : ∀ c ∈ decDigits n, c.isDigit = true :=
  decDigitsAux_all_digit (n + 1) n (Nat.lt_succ_self n)

theorem decDigits_ne_nil {n : Nat} : decDigits n ≠ [] :=
  decDigitsAux_ne_nil (Nat.lt_succ_self n)

theorem digitsVal_decDigits {n : Nat} : digitsVal (decDigits n) = n :=
  digitsVal_decDigitsAux (n + 1) n (Nat.lt_succ_self n)

theorem pad2_all_digit {n : Nat} : ∀ c ∈ pad2 n, c.isDigit = true := by
  unfold pad2
  by_cases h : n < 10
  · rw [if_pos h]
    intro c hc
    rcases List.mem_cons.mp hc with rfl | hc
    · decide
    · exact decDigits_all_digit c hc
  · rw [if_neg h]
    exact decDigits_all_digit

theorem pad2_ne_nil {n : Nat} : pad2 n ≠ [] := by
  unfold pad2
  by_cases h : n < 10
  · simp [h]
  · rw [if_neg h]
    exact decDigits_ne_nil

theorem pyDigits_of_digits {l : List Char} (hne : l ≠ [])
    (h : ∀ c ∈ l, c.isDigit = true) : pyDigits l = some (digitsVal l) := by
  unfold pyDigits
  rw [if_pos (validDigits_of_digits hne h)]

theorem pyIntOfChars_of_digits {l : List Char} (hne : l ≠ [])
    (h : ∀ c ∈ l, c.isDigit = true) : pyIntOfChars l = some (digitsVal l : Int) := by
  unfold pyIntOfChars
  rw [stripWhile_eq_self_of_neg (fun c hc => isDigit_not_ws (h c hc))]
  cases l with
  | nil => exact absurd rfl hne
  | cons c rest =>
    have hc : c.isDigit = true := h c (List.mem_cons_self _ _)
    simp only []
    rw [if_neg (by simp [isDigit_beq_false hc (by decide : ('+' : Char).isDigit = false)]),
        if_neg (by simp [isDigit_beq_false hc (by decide : ('-' : Char).isDigit = false)]),
        pyDigits_of_digits hne h]
    rfl

theorem pyIntOfChars_decDigits (n : Nat) : pyIntOfChars (decDigits n) = some (n : Int) := by
  rw [pyIntOfChars_of_digits decDigits_ne_nil decDigits_all_digit, digitsVal_decDigits]

theorem digitsVal_cons_zero (l : List Char) : digitsVal ('0' :: l) = digitsVal l := rfl

theorem pyIntOfChars_pad2 (n : Nat) : pyIntOfChars (pad2 n) = some (n : Int) := by
  unfold pad2
  by_cases h : n < 10
  · rw [if_pos h]
    rw [pyIntOfChars_of_digits (by simp) ?digits]
    · rw [digitsVal_cons_zero, digitsVal_decDigits]
    case digits =>
      intro c hc
      rcases List.mem_cons.mp hc with rfl | hc
      · decide
      · exact decDigits_all_digit c hc
  · rw [if_neg h]
    exact pyIntOfChars_decDigits n

theorem splitOnChar_not_mem {c : Char} {l : List Char} (h : c ∉ l) :
    splitOnChar c l = [l] := by
  induction l with
  | nil => rfl
  | cons x rest ih =>
    unfold splitOnChar
    have hx : (x == c) = false :=
      beq_eq_false_iff_ne.mpr (fun he => h (he ▸ List.mem_cons_self x rest))
    rw [if_neg (by simp [hx])]
    rw [ih (fun hc => h (List.mem_cons_of_mem x hc))]

theorem splitOnChar_append {c : Char} {l1 l2 : List Char} (h : c ∉ l1) :
    splitOnChar c (l1 ++ c :: l2) = l1 :: splitOnChar c l2 := by
  induction l1 with
  | nil =>
    simp only [List.nil_append]
    simp only [splitOnChar]
    rw [if_pos (by simp)]
  | cons x rest ih =>
    have hx : (x == c) = false :=
      beq_eq_false_iff_ne.mpr (fun he => h (he ▸ List.mem_cons_self x rest))
    simp only [List.cons_append]
    simp only [splitOnChar]
    rw [if_neg (by simp [hx])]
    rw [ih (fun hc => h (List.mem_cons_of_mem x hc))]

theorem not_colon_of_digits {l : List Char} (h : ∀ c ∈ l, c.isDigit = true) :
    (':' : Char) ∉ l := by
  intro hc
  have := h _ hc
  simp at this

theorem time_to_seconds_mk {A B C : List Char} {a b c : Int}
    (hA : pyIntOfChars A = some a) (hB : pyIntOfChars B = some b)
    (hC : pyIntOfChars C = some c)
    (nA : (':' : Char) ∉ A) (nB : (':' : Char) ∉ B) (nC : (':' : Char) ∉ C) :
    time_to_seconds ⟨A ++ ':' :: B ++ ':' :: C⟩ = some (a * 3600 + b * 60 + c) := by
  unfold time_to_seconds
  have hd : (String.mk (A ++ ':' :: B ++ ':' :: C)).data = A ++ ':' :: (B ++ ':' :: C) := by
    show (A ++ ':' :: B) ++ ':' :: C = A ++ ':' :: (B ++ ':' :: C)
    rw [List.append_assoc, List.cons_append]
  rw [hd, splitOnChar_append nA, splitOnChar_append nB, splitOnChar_not_mem nC]
  show timeFields A B C = some (a * 3600 + b * 60 + c)
  unfold timeFields
  rw [hA, hB, hC]

/-- C6: for every valid `hh:mm:ss` string (two-digit fields, `hh ≤ 23`,
`mm, ss ≤ 59`), converting to total seconds with `time_to_seconds`,
formatting that number back with the program's timestamp formatter
(`str(datetime.timedelta(seconds=n))`, as used in
`format_transcript_with_timestamps`), and converting again returns the same
number of seconds: the round-trip `seconds(toTimestamp(seconds(s))) =
seconds(s)` holds. -/
theorem claim_C6_roundtrip (h m s : Nat) (hh : h ≤ 23) (hm : m ≤ 59) (hs : s ≤ 59) :
    time_to_seconds (hmsString h m s) = some ((h * 3600 + m * 60 + s : Nat) : Int) ∧
    time_to_seconds (formatTimedelta (h * 3600 + m * 60 + s)) =
      some ((h * 3600 + m * 60 + s : Nat) : Int) := by
  constructor
  · unfold hmsString
    rw [time_to_seconds_mk (pyIntOfChars_pad2 h) (pyIntOfChars_pad2 m) (pyIntOfChars_pad2 s)
        (not_colon_of_digits pad2_all_digit) (not_colon_of_digits pad2_all_digit)
        (not_colon_of_digits pad2_all_digit)]
    refine congrArg some ?_
    push_cast
    ring
  · unfold formatTimedelta
    have hn : h * 3600 + m * 60 + s < 86400 := by omega
    have hd0 : (h * 3600 + m * 60 + s) / 86400 = 0 := Nat.div_eq_of_lt hn
    rw [hd0]
    rw [if_pos (by simp)]
    rw [time_to_seconds_mk (pyIntOfChars_decDigits _) (pyIntOfChars_pad2 _)
        (pyIntOfChars_pad2 _)
        (not_colon_of_digits decDigits_all_digit) (not_colon_of_digits pad2_all_digit)
        (not_colon_of_digits pad2_all_digit)]
    refine congrArg some ?_
    have h86 : (h * 3600 + m * 60 + s) % 86400 = h * 3600 + m * 60 + s :=
      Nat.mod_eq_of_lt hn
    rw [h86]
    push_cast
    omega

/-- C6 witness: the round-trip at the concrete timestamp `00:12:03`. -/
theorem claim_C6_witness :
    time_to_seconds (hmsString 0 12 3) = some ((0 * 3600 + 12 * 60 + 3 : Nat) : Int) ∧
    time_to_seconds (formatTimedelta (0 * 3600 + 12 * 60 + 3)) =
      some ((0 * 3600 + 12 * 60 + 3 : Nat) : Int) :=
  claim_C6_roundtrip 0 12 3 (by decide) (by decide) (by decide)

theorem parseLines_eq_filterMap (ls : List String) :
    parseLines ls = ls.filterMap parseEventLine := by
  induction ls with
  | nil => rfl
  | cons l ls ih =>
    simp only [parseLines, List.filterMap_cons]
    cases h : parseEventLine l <;> simp [h, ih]

theorem parseEventLine_not_five {l : String}
    (h : (pySplitN eventSep 4 (pyStripWs l).data).length ≠ 5) :
    parseEventLine l = none := by
  unfold parseEventLine
  by_cases hb : pyStripWs l = ""
  · rw [if_pos hb]
  · rw [if_neg hb]
    split
    · rename_i a b c d e heq
      rw [heq] at h
      simp at h
    · rfl

theorem parseEventLine_five {l : String} {a b c d e : List Char}
    (h : pySplitN eventSep 4 (pyStripWs l).data = [a, b, c, d, e]) :
    parseEventLine l =
      some ⟨pyStripBrackets ⟨a⟩, pyStripBrackets ⟨b⟩, ⟨c⟩, ⟨d⟩, ⟨e⟩⟩ := by
  unfold parseEventLine
  have hb : pyStripWs l ≠ "" := by
    intro he
    rw [he] at h
    simp [pySplitN, findSplit] at h
  rw [if_neg hb, h]

/-- C4: the detector-response parser splits each non-blank line on the first
four occurrences of `" - "`; every line yielding exactly five fields
produces one event record (timestamp fields stripped of `[] `), lines with
any other field count are skipped without aborting the batch, records are
produced in input line order (the loop is `filterMap`), separators embedded
in the description are preserved, an all-blank or fully malformed response
yields the empty list, and the ten-line example with one two-field line
yields nine records. -/
theorem claim_C4_line_protocol :
    (∀ ls : List String, parseLines ls = ls.filterMap parseEventLine) ∧
    (∀ l : String, (pySplitN eventSep 4 (pyStripWs l).data).length ≠ 5 →
      parseEventLine l = none) ∧
    (∀ (l : String) (a b c d e : List Char),
      pySplitN eventSep 4 (pyStripWs l).data = [a, b, c, d, e] →
      parseEventLine l =
        some ⟨pyStripBrackets ⟨a⟩, pyStripBrackets ⟨b⟩, ⟨c⟩, ⟨d⟩, ⟨e⟩⟩) ∧
    parseEventLine "00:01:00 - 00:02:00 - N/A - foul - hard - late - tackle" =
      some ⟨"00:01:00", "00:02:00", "N/A", "foul", "hard - late - tackle"⟩ ∧
    (extract_events_from_response tenLineResponse).length = 9 ∧
    extract_events_from_response "" = [] ∧
    extract_events_from_response "\n  \n " = [] :=
  ⟨parseLines_eq_filterMap,
   fun _ h => parseEventLine_not_five h,
   fun _ _ _ _ _ _ h => parseEventLine_five h,
   by decide, by decide, rfl, by decide⟩

/-- C4 witness: the two-field line `"bad - line"` is skipped. -/
theorem claim_C4_witness : parseEventLine "bad - line" = none :=
  claim_C4_line_protocol.2.1 "bad - line" (by decide)

theorem planAux_append (i : Nat) (xs ys : List EventRec) :
    planAux i (xs ++ ys) = planAux i xs ++ planAux (i + xs.length) ys := by
  induction xs generalizing i with
  | nil => simp [planAux]
  | cons x xs ih =>
    simp only [List.cons_append, planAux]
    cases h : planEvent i x
    · simp only [List.append_eq]
      rw [ih (i + 1)]
      rw [show i + 1 + xs.length = i + (x :: xs).length from by simp; omega]
    · simp only [List.append_eq]
      rw [ih (i + 1)]
      rw [show i + 1 + xs.length = i + (x :: xs).length from by simp; omega]
      rw [List.cons_append]

theorem planEvent_none_indep {e : EventRec} {i : Nat} (h : planEvent i e = none)
    (j : Nat) : planEvent j e = none := by
  unfold planEvent at h ⊢
  cases h1 : time_to_seconds e.start_timestamp with
  | none => rfl
  | some ss =>
    cases h2 : time_to_seconds e.end_timestamp with
    | none => rfl
    | some es =>
      rw [h1, h2] at h
      simp only [] at h ⊢
      by_cases hd : es - ss ≤ 0
      · rw [if_pos hd]
      · rw [if_neg hd] at h
        exact absurd h (by simp)

theorem planAux_skip_middle {e : EventRec} {i : Nat} (h : planEvent i e = none) :
    ∀ (j : Nat) (pre post : List EventRec),
      planAux j (pre ++ e :: post) = planAux j pre ++ planAux (j + pre.length + 1) post := by
  intro j pre post
  rw [planAux_append]
  simp only [planAux]
  rw [planEvent_none_indep h (j + pre.length)]

/-- C7: an event record whose end timestamp (in seconds) is less than or
equal to its start timestamp never produces a clip: `planEvent` drops it at
every position, and dropping it is not fatal — clip planning for the
surrounding records proceeds exactly as if the record contributed nothing
(each remaining record keeps its own `enumerate` position). -/
theorem claim_C7_nonpositive_duration (e : EventRec) (ss es : Int)
    (h1 : time_to_seconds e.start_timestamp = some ss)
    (h2 : time_to_seconds e.end_timestamp = some es)
    (hle : es ≤ ss) :
    (∀ i, planEvent i e = none) ∧
    (∀ (i : Nat) (pre post : List EventRec),
      planAux i (pre ++ e :: post) = planAux i pre ++ planAux (i + pre.length + 1) post) := by
  have hnone : ∀ i, planEvent i e = none := by
    intro i
    unfold planEvent
    rw [h1, h2]
    simp only []
    rw [if_pos (by omega : es - ss ≤ 0)]
  exact ⟨hnone, fun i pre post => planAux_skip_middle (hnone i) i pre post⟩

/-- C7 witness: a record spanning `00:00:05 .. 00:00:05` (duration 0)
produces no clip. -/
theorem claim_C7_witness :
    planEvent 0 ⟨"00:00:05", "00:00:05", "A", "goal", "d"⟩ = none :=
  (claim_C7_nonpositive_duration ⟨"00:00:05", "00:00:05", "A", "goal", "d"⟩ 5 5
    (by decide) (by decide) (by decide)).1 0

/-- C10: a timestamp string without exactly three colon-separated integer
fields makes `time_to_seconds` raise (`none`); inside clip creation the
per-event `try/except` turns this into a skipped event (`planEvent` returns
`none`), and the loop continues with the remaining events.  Concrete
malformed shapes are evaluated. -/
theorem claim_C10_malformed_timestamp :
    (∀ s : String, (splitOnChar ':' s.data).length ≠ 3 → time_to_seconds s = none) ∧
    (∀ (i : Nat) (e : EventRec),
      time_to_seconds e.start_timestamp = none ∨
        time_to_seconds e.end_timestamp = none →
      planEvent i e = none) ∧
    (∀ (i : Nat) (pre post : List EventRec) (e : EventRec),
      time_to_seconds e.start_timestamp = none ∨
        time_to_seconds e.end_timestamp = none →
      planAux i (pre ++ e :: post) = planAux i pre ++ planAux (i + pre.length + 1) post) ∧
    time_to_seconds "00:12" = none ∧
    time_to_seconds "aa:bb:cc" = none ∧
    time_to_seconds "not a timestamp" = none := by
  have hnone : ∀ (i : Nat) (e : EventRec),
      time_to_seconds e.start_timestamp = none ∨
        time_to_seconds e.end_timestamp = none →
      planEvent i e = none := by
    intro i e h
    unfold planEvent
    rcases h with h | h
    · rw [h]
    · cases h1 : time_to_seconds e.start_timestamp with
      | none => rfl
      | some ss => rw [h]
  refine ⟨?_, hnone, ?_, by decide, by decide, by decide⟩
  · intro s h
    unfold time_to_seconds
    split
    · rename_i a b c heq
      rw [heq] at h
      simp at h
    · rfl
  · intro i pre post e h
    exact planAux_skip_middle (hnone i e h) i pre post

/-- C10 witness: the two-field timestamp `"12:30"` makes the conversion
raise. -/
theorem claim_C10_witness : time_to_seconds "12:30" = none :=
  claim_C10_malformed_timestamp.1 "12:30" (by decide)

/-- C8: the overlay text/color pair is selected from the fixed lookup table
keyed by the capitalize-normalized event type: goal, foul, replacement and
missed-goal each get their own distinct color and templated text, and every
other type (including prologue and epilogue) gets the default template with
the neutral color `white@0.5`.  The example line
`"00:12:03 - 00:12:25 - Argentina - goal - Header Goal by Messi"` parses to
the expected record, converts to start 723 s and duration 22 s, and selects
the goal overlay with the team name upper-cased. -/
theorem claim_C8_overlay_table :
    (∀ team desc, overlayFor "goal" team desc = ("GOAL by " ++ pyUpper team, "red@0.5")) ∧
    (∀ team desc, overlayFor "foul" team desc = ("FOUL: " ++ desc, "yellow@0.5")) ∧
    (∀ team desc, overlayFor "replacement" team desc =
      ("SUBSTITUTION: " ++ desc, "blue@0.5")) ∧
    (∀ team desc, overlayFor "missed goal" team desc =
      ("MISSED CHANCE: " ++ pyUpper team, "orange@0.5")) ∧
    (∀ t team desc,
      pyCapitalize t ∉ (["Goal", "Foul", "Replacement", "Missed goal"] : List String) →
      overlayFor t team desc =
        (pyUpper (pyCapitalize t) ++ ": " ++ desc, "white@0.5")) ∧
    (∀ team desc, overlayFor "prologue" team desc = ("PROLOGUE: " ++ desc, "white@0.5")) ∧
    (∀ team desc, overlayFor "epilogue" team desc = ("EPILOGUE: " ++ desc, "white@0.5")) ∧
    (["red@0.5", "yellow@0.5", "blue@0.5", "orange@0.5", "white@0.5"] : List String).Pairwise
      (· ≠ ·) ∧
    parseEventLine "00:12:03 - 00:12:25 - Argentina - goal - Header Goal by Messi" =
      some ⟨"00:12:03", "00:12:25", "Argentina", "goal", "Header Goal by Messi"⟩ ∧
    planEvent 0 ⟨"00:12:03", "00:12:25", "Argentina", "goal", "Header Goal by Messi"⟩ =
      some ⟨1, "clip_1_goal.mp4", 723, 22, "GOAL by ARGENTINA", "red@0.5"⟩ := by
  refine ⟨fun team desc => rfl, fun team desc => rfl, fun team desc => rfl,
    fun team desc => rfl, ?_, fun team desc => rfl, fun team desc => rfl,
    by decide, by decide, by decide⟩
  intro t team desc h
  simp only [List.mem_cons, List.mem_singleton, not_or] at h
  obtain ⟨h1, h2, h3, h4⟩ := h
  unfold overlayFor get_event_overlay_config
  rw [if_neg (by simpa using h1), if_neg (by simpa using h2),
      if_neg (by simpa using h3), if_neg (by simpa using h4)]

/-- C8 witness: an unlisted event type (`"corner"`) selects the default
template with the neutral color. -/
theorem claim_C8_witness :
    overlayFor "corner" "X" "cleared off the line" =
      ("CORNER: cleared off the line", "white@0.5") := by
  have h := claim_C8_overlay_table.2.2.2.2.1 "corner" "X" "cleared off the line" (by decide)
  simpa using h

theorem planEvent_some_fields {i : Nat} {e : EventRec} {c : Clip}
    (h : planEvent i e = some c) :
    c.idx = i + 1 ∧
    c.filename = "clip_" ++ natToDec (i + 1) ++ "_" ++
      pyLower (pyReplaceChar e.event_type ' ' '_') ++ ".mp4" := by
  unfold planEvent at h
  cases h1 : time_to_seconds e.start_timestamp with
  | none => rw [h1] at h; simp at h
  | some ss =>
    cases h2 : time_to_seconds e.end_timestamp with
    | none => rw [h1, h2] at h; simp at h
    | some es =>
      rw [h1, h2] at h
      simp only [] at h
      by_cases hd : es - ss ≤ 0
      · rw [if_pos hd] at h; simp at h
      · rw [if_neg hd] at h
        simp only [Option.some.injEq] at h
        rw [← h]
        exact ⟨rfl, rfl⟩

theorem planAux_mem_spec :
    ∀ (evs : List EventRec) (i : Nat), ∀ c ∈ planAux i evs,
      (i + 1 ≤ c.idx ∧ c.idx ≤ i + evs.length) ∧
      ∃ t : String, c.filename = "clip_" ++ natToDec c.idx ++ "_" ++ t ++ ".mp4" := by
  intro evs
  induction evs with
  | nil => intro i c hc; simp [planAux] at hc
  | cons e rest ih =>
    intro i c hc
    unfold planAux at hc
    cases h : planEvent i e with
    | none =>
      rw [h] at hc
      have := ih (i + 1) c hc
      refine ⟨⟨by omega, by simp; omega⟩, this.2⟩
    | some c0 =>
      rw [h] at hc
      rcases List.mem_cons.mp hc with rfl | hc
      · have hf := planEvent_some_fields h
        refine ⟨⟨by omega, by simp; omega⟩, ⟨pyLower (pyReplaceChar e.event_type ' ' '_'), ?_⟩⟩
        rw [hf.2, hf.1]
      · have := ih (i + 1) c hc
        refine ⟨⟨by omega, by simp; omega⟩, this.2⟩

theorem planAux_pairwise_idx (evs : List EventRec) :
    ∀ i : Nat, (planAux i evs).Pairwise (fun a b => a.idx < b.idx) := by
  induction evs with
  | nil => intro i; simp [planAux]
  | cons e rest ih =>
    intro i
    unfold planAux
    cases h : planEvent i e with
    | none => exact ih (i + 1)
    | some c0 =>
      rw [List.pairwise_cons]
      refine ⟨?_, ih (i + 1)⟩
      intro b hb
      have hb1 := (planAux_mem_spec rest (i + 1) b hb).1.1
      have hc0 := (planEvent_some_fields h).1
      omega

theorem decDigits_lt_ten {k : Nat} (h : k < 10) : decDigits k = [Nat.digitChar k] := by
  unfold decDigits
  simp only [decDigitsAux]
  rw [if_pos h]

theorem digitChar_lt {k1 k2 : Nat} (h : k1 < k2) (h9 : k2 ≤ 9) :
    Nat.digitChar k1 < Nat.digitChar k2 := by
  have hk1 : k1 ≤ 8 := by omega
  interval_cases k1 <;> interval_cases k2 <;> first | decide | omega

theorem lexLe_common_lt {c1 c2 : Char} (h : c1 < c2) :
    ∀ (p r1 r2 : List Char), lexLe (p ++ c1 :: r1) (p ++ c2 :: r2) = true := by
  intro p
  induction p with
  | nil =>
    intro r1 r2
    simp only [List.nil_append, lexLe]
    rw [if_pos h]
  | cons x p ih =>
    intro r1 r2
    simp only [List.cons_append, lexLe]
    rw [if_neg (lt_irrefl x), if_neg (lt_irrefl x)]
    exact ih r1 r2

theorem pyStrLe_clip_names {k1 k2 : Nat} (h1 : 1 ≤ k1) (h2 : k1 < k2) (h3 : k2 ≤ 9)
    (t1 t2 : String) :
    pyStrLe ("clip_" ++ natToDec k1 ++ "_" ++ t1 ++ ".mp4")
      ("clip_" ++ natToDec k2 ++ "_" ++ t2 ++ ".mp4") = true := by
  unfold pyStrLe
  have d1 : ("clip_" ++ natToDec k1 ++ "_" ++ t1 ++ ".mp4").data =
      "clip_".data ++ Nat.digitChar k1 :: (("_" ++ t1 ++ ".mp4").data) := by
    simp [String.data_append, natToDec, decDigits_lt_ten (by omega : k1 < 10),
      List.append_assoc]
  have d2 : ("clip_" ++ natToDec k2 ++ "_" ++ t2 ++ ".mp4").data =
      "clip_".data ++ Nat.digitChar k2 :: (("_" ++ t2 ++ ".mp4").data) := by
    simp [String.data_append, natToDec, decDigits_lt_ten (by omega : k2 < 10),
      List.append_assoc]
  rw [d1, d2]
  exact lexLe_common_lt (digitChar_lt h2 h3) _ _ _

theorem sortStrings_eq_self {l : List String}
    (h : l.Pairwise (fun a b => pyStrLe a b = true)) : sortStrings l = l := by
  induction l with
  | nil => rfl
  | cons x xs ih =>
    rw [List.pairwise_cons] at h
    unfold sortStrings
    rw [ih h.2]
    cases xs with
    | nil => rfl
    | cons y ys =>
      unfold insertSorted
      rw [if_pos (h.1 y (List.mem_cons_self y ys))]

theorem isPrefixOf_append_self (l t : List Char) : l.isPrefixOf (l ++ t) = true := by
  induction l with
  | nil => simp [List.isPrefixOf]
  | cons c l ih => simp [List.isPrefixOf, ih]

theorem endsWithStr_append (x : String) (suf : String) :
    endsWithStr suf (x ++ suf) = true := by
  unfold endsWithStr
  rw [String.data_append]
  unfold List.isSuffixOf
  rw [List.reverse_append]
  exact isPrefixOf_append_self _ _

/-- C5 counterexample: with ten valid events, the list handed to the
stitching stage by `run_pipeline` (line 475: the lexicographically sorted
`.mp4` names of the clips directory) is NOT the event-order clip list —
`clip_10_goal.mp4` sorts before `clip_1_goal.mp4` and `clip_2_goal.mp4`, so
the claim that clips are stitched in the same order as the events that
produced them is false. -/
theorem claim_C5_counterexample :
    ∃ (fs : FS) (r : RunPaths), run_pipeline tenEventOracles [] 0 "t" = .ok (fs, r) ∧
      r.clips ≠ (planAux 0 r.events).map
        (fun c => (cacheDirOf tenEventOracles 0 ++ "/clips") ++ "/" ++ c.filename) :=
  ⟨_, _, rfl, by decide⟩

/-- C5 (amended): the clip planner assigns each produced clip the
deterministic filename `clip_<1-based position>_<event type with spaces
replaced by underscores, lower-cased>.mp4`; the stitching input is the
lexicographically sorted list of those filenames, which coincides with the
order of the events that produced them whenever the event list has at most
nine records (single-digit positions) — with ten or more, sorting breaks
event order. -/
theorem claim_C5_amended :
    (∀ (i : Nat) (e : EventRec) (c : Clip),
      planEvent i e = some c →
      c.idx = i + 1 ∧
      c.filename = "clip_" ++ natToDec (i + 1) ++ "_" ++
        pyLower (pyReplaceChar e.event_type ' ' '_') ++ ".mp4") ∧
    (∀ evs : List EventRec, evs.length ≤ 9 →
      (sortStrings ((planAux 0 evs).map (fun c => c.filename))).filter
          (fun f => endsWithStr ".mp4" f) =
        (planAux 0 evs).map (fun c => c.filename)) := by
  refine ⟨fun i e c h => planEvent_some_fields h, ?_⟩
  intro evs h9
  have hspec := planAux_mem_spec evs 0
  have hpw : ((planAux 0 evs).map (fun c => c.filename)).Pairwise
      (fun a b => pyStrLe a b = true) := by
    rw [List.pairwise_map]
    refine (planAux_pairwise_idx evs 0).imp_of_mem ?_
    intro a b ha hb hlt
    obtain ⟨⟨ha1, ha2⟩, ta, hta⟩ := hspec a ha
    obtain ⟨⟨hb1, hb2⟩, tb, htb⟩ := hspec b hb
    rw [hta, htb]
    exact pyStrLe_clip_names (by omega) hlt (by omega) ta tb
  rw [sortStrings_eq_self hpw]
  rw [List.filter_eq_self]
  intro a ha
  rcases List.mem_map.mp ha with ⟨c, hc, rfl⟩
  obtain ⟨_, t, ht⟩ := hspec c hc
  rw [ht]
  exact endsWithStr_append _ _

/-- C5 witness: for a single-record event list the sorted stitch input is
exactly the event-order filename list. -/
theorem claim_C5_witness :
    (sortStrings ((planAux 0 [⟨"00:00:01", "00:00:05", "A", "goal", "x"⟩]).map
        (fun c => c.filename))).filter (fun f => endsWithStr ".mp4" f) =
      (planAux 0 [⟨"00:00:01", "00:00:05", "A", "goal", "x"⟩]).map
        (fun c => c.filename) :=
  claim_C5_amended.2 [⟨"00:00:01", "00:00:05", "A", "goal", "x"⟩] (by decide)

/-- C1: `run_pipeline` treats a cached artifact as a cache hit based on
`os.path.exists` alone, never calling `check_file_integrity`: with a
zero-byte `audio.wav` in the cache entry, stage 1 takes the cache branch
(`ran = false`) and leaves the file untouched even though
`check_file_integrity` rejects it; with a non-empty but unparseable
`events.json`, stage 3 likewise takes the cache branch and the subsequent
unconditional `json.load` raises instead of regenerating the file. -/
theorem claim_C1_cache_hit_ignores_integrity :
    runStage1 demoOracles [("uploads/cache/h/audio.wav", FData.raw 0)] 0 =
      ⟨[("uploads/cache/h/audio.wav", FData.raw 0)], false⟩ ∧
    check_file_integrity [("uploads/cache/h/audio.wav", FData.raw 0)]
      "uploads/cache/h/audio.wav" = false ∧
    runStage3 demoOracles [("uploads/cache/h/events.json", FData.raw 7)] 0 =
      ⟨[("uploads/cache/h/events.json", FData.raw 7)], false⟩ ∧
    loadEvents [("uploads/cache/h/events.json", FData.raw 7)] (cacheDirOf demoOracles 0) =
      .error "JSONDecodeError: events.json" ∧
    check_file_integrity [("uploads/cache/h/events.json", FData.raw 7)]
      "uploads/cache/h/events.json" = false := by
  refine ⟨rfl, rfl, rfl, rfl, rfl⟩

theorem dropWhile_append_of_all {p : Char → Bool} {l1 l2 : List Char}
    (h : ∀ c ∈ l1, p c = true) : (l1 ++ l2).dropWhile p = l2.dropWhile p := by
  induction l1 with
  | nil => rfl
  | cons c l1 ih =>
    simp only [List.cons_append, List.dropWhile_cons, h c (List.mem_cons_self c l1),
      if_true]
    exact ih (fun x hx => h x (List.mem_cons_of_mem c hx))

theorem dirname_of_append (d nm p : String)
    (h : ∀ c ∈ nm.data, (c == '/') = false)
    (hp : p.data = d.data ++ '/' :: nm.data) : dirname p = d := by
  unfold dirname
  rw [hp, List.reverse_append, List.reverse_cons, List.append_assoc]
  rw [@dropWhile_append_of_all (fun c => !(c == '/')) nm.data.reverse
    (['/'] ++ d.data.reverse) (fun c hc => by simp [h c (List.mem_reverse.mp hc)])]
  simp only [List.singleton_append, List.dropWhile_cons]
  rw [if_neg (by simp)]
  show String.mk d.data.reverse.reverse = d
  rw [List.reverse_reverse]

/-- C2: the stage functions derive their output locations from input paths
that `run_pipeline` points inside the cache entry, so stage outputs are
produced directly at the final cache paths rather than at a temporary
location outside the cache: `transcribe_audio` writes both transcript files
into `dirname(audio_path)` — the cache directory itself — and
`create_clips_from_events` and `stitch_clips` likewise resolve to
`cache_dir/clips` and `cache_dir/summary.mp4` (the subsequent `os.replace`
calls are self-moves). -/
theorem claim_C2_outputs_written_inside_cache (cd : String) (nm : String)
    (hnm : ∀ c ∈ nm.data, (c == '/') = false) :
    transcribe_txt_path (cd ++ "/audio.wav") = cd ++ "/transcript.txt" ∧
    transcribe_json_path (cd ++ "/audio.wav") = cd ++ "/transcript.json" ∧
    clips_dir_of (cd ++ "/events.json") = cd ++ "/clips" ∧
    stitch_summary_path (cd ++ "/clips" ++ "/" ++ nm) = cd ++ "/summary.mp4" := by
  have haudio : dirname (cd ++ "/audio.wav") = cd :=
    dirname_of_append cd "audio.wav" _ (by decide) rfl
  have hevents : dirname (cd ++ "/events.json") = cd :=
    dirname_of_append cd "events.json" _ (by decide) rfl
  have hclip : dirname (cd ++ "/clips" ++ "/" ++ nm) = cd ++ "/clips" :=
    dirname_of_append (cd ++ "/clips") nm _ hnm
      (by rw [String.data_append, String.data_append]; simp [List.append_assoc])
  have hclips2 : dirname (cd ++ "/clips") = cd :=
    dirname_of_append cd "clips" _ (by decide) rfl
  refine ⟨?_, ?_, ?_, ?_⟩
  · unfold transcribe_txt_path
    rw [haudio]
  · unfold transcribe_json_path
    rw [haudio]
  · unfold clips_dir_of
    rw [hevents]
  · unfold stitch_summary_path
    rw [hclip, hclips2]

/-- C2 witness: the path coincidences at a concrete cache directory and clip
name. -/
theorem claim_C2_witness :
    transcribe_txt_path ("uploads/cache/h" ++ "/audio.wav") =
      "uploads/cache/h" ++ "/transcript.txt" ∧
    transcribe_json_path ("uploads/cache/h" ++ "/audio.wav") =
      "uploads/cache/h" ++ "/transcript.json" ∧
    clips_dir_of ("uploads/cache/h" ++ "/events.json") = "uploads/cache/h" ++ "/clips" ∧
    stitch_summary_path ("uploads/cache/h" ++ "/clips" ++ "/" ++ "clip_1_goal.mp4") =
      "uploads/cache/h" ++ "/summary.mp4" :=
  claim_C2_outputs_written_inside_cache "uploads/cache/h" "clip_1_goal.mp4" (by decide)

/-- C3: when event detection succeeds but parses zero events, `run_pipeline`
skips writing `events.json` (`if events:` is falsy for the empty list) and
then unconditionally reopens it, raising `FileNotFoundError`; the task
therefore ends in an `"Error: ..."` status, not a Complete-with-no-summary
state. -/
theorem claim_C3_zero_events_errors :
    run_pipeline zeroEventOracles [] 0 "t" = .error "FileNotFoundError: events.json" ∧
    process_status (run_pipeline zeroEventOracles [] 0 "t") =
      "Error: FileNotFoundError: events.json" :=
  ⟨rfl, rfl⟩

theorem find?_filter_of {α : Type _} (l : List α) (p q : α → Bool)
    (h : ∀ e, p e = true → q e = true) : (l.filter q).find? p = l.find? p := by
  induction l with
  | nil => rfl
  | cons e l ih =>
    cases hq : q e with
    | true =>
      rw [List.filter_cons_of_pos hq]
      cases hp : p e with
      | true => rw [List.find?_cons_of_pos _ hp, List.find?_cons_of_pos _ hp]
      | false =>
        rw [List.find?_cons_of_neg _ (by simp [hp]), List.find?_cons_of_neg _ (by simp [hp]),
          ih]
    | false =>
      rw [List.filter_cons_of_neg (by simp [hq])]
      have hp : p e = false := by
        cases hpe : p e
        · rfl
        · rw [h e hpe] at hq
          exact absurd hq (by simp)
      rw [List.find?_cons_of_neg _ (by simp [hp]), ih]

theorem fsGet_fsSet_ne {fs : FS} {pth q : String} {d : FData} (h : pth ≠ q) :
    fsGet (fsSet fs pth d) q = fsGet fs q := by
  unfold fsGet fsSet
  rw [List.find?_cons_of_neg _ (by simp [h])]
  rw [find?_filter_of]
  intro e he
  simp only [beq_iff_eq] at he
  simp [he]
  exact fun hee => h hee.symm

theorem filterMap_filter_of_none {α β : Type _} (l : List α) (f : α → Option β)
    (q : α → Bool) (h : ∀ e, q e = false → f e = none) :
    (l.filter q).filterMap f = l.filterMap f := by
  induction l with
  | nil => rfl
  | cons e l ih =>
    cases hq : q e with
    | true =>
      rw [List.filter_cons_of_pos hq, List.filterMap_cons, List.filterMap_cons]
      cases f e <;> simp [ih]
    | false =>
      rw [List.filter_cons_of_neg (by simp [hq]), List.filterMap_cons, h e hq, ih]

theorem listdir_fsSet_none {fs : FS} {dir pth : String} {d : FData}
    (h : childNameOpt dir pth = none) :
    listdir (fsSet fs pth d) dir = listdir fs dir := by
  unfold listdir fsSet
  rw [List.filterMap_cons]
  simp only [h]
  rw [filterMap_filter_of_none]
  intro e hq
  simp only [Bool.not_eq_false', beq_iff_eq] at hq
  rw [hq]
  exact h

theorem append_ne_of_getElem {pre s : List Char} (i : Nat)
    (hi : i < pre.length) (hne : pre[i]? ≠ s[i]?) (t : List Char) : pre ++ t ≠ s := by
  intro he
  apply hne
  rw [← he, List.getElem?_append, if_pos hi]

theorem cdAppend_ne (cd : String) {a b : String} (i : Nat)
    (hne : a.data[i]? ≠ b.data[i]?) : cd ++ a ≠ cd ++ b := by
  intro he
  have hd := congrArg String.data he
  rw [String.data_append, String.data_append] at hd
  exact hne (by rw [List.append_cancel_left hd])

theorem clipPath_ne_suffix (cd nm : String) {tail : String} (i : Nat) (hi : i < 7)
    (hne : (['/', 'c', 'l', 'i', 'p', 's', '/'] : List Char)[i]? ≠ tail.data[i]?) :
    (cd ++ "/clips") ++ "/" ++ nm ≠ cd ++ tail := by
  intro he
  have hd := congrArg String.data he
  rw [String.data_append, String.data_append, String.data_append, String.data_append,
    List.append_assoc, List.append_assoc] at hd
  have h2 := List.append_cancel_left hd
  have h3 : (['/', 'c', 'l', 'i', 'p', 's', '/'] : List Char) ++ nm.data = tail.data := by
    rw [← h2]
    rfl
  exact append_ne_of_getElem i (by simpa using hi) hne nm.data h3

theorem isPrefixOf_append_cancel (a b c : List Char) :
    (a ++ b).isPrefixOf (a ++ c) = b.isPrefixOf c := by
  induction a with
  | nil => rfl
  | cons x a ih => simp [List.isPrefixOf, ih]

theorem data_clips_slash (cd : String) :
    ((cd ++ "/clips") ++ "/").data = cd.data ++ (['/', 'c', 'l', 'i', 'p', 's', '/'] : List Char) := by
  rw [String.data_append, String.data_append, List.append_assoc]
  rfl

theorem childNameOpt_summary_none (cd : String) :
    childNameOpt (cd ++ "/clips") (cd ++ "/summary.mp4") = none := by
  have hno : ¬ ((((cd ++ "/clips") ++ "/").data.isPrefixOf (cd ++ "/summary.mp4").data) = true) := by
    rw [data_clips_slash, String.data_append, isPrefixOf_append_cancel]
    decide
  unfold childNameOpt
  rw [if_neg hno]

theorem fsGet_foldl_writes_ne {l : List Clip} {fs : FS} {q : String}
    {f : Clip → String} {g : Clip → FData}
    (h : ∀ c ∈ l, f c ≠ q) :
    fsGet (l.foldl (fun acc c => fsSet acc (f c) (g c)) fs) q = fsGet fs q := by
  induction l generalizing fs with
  | nil => rfl
  | cons c l ih =>
    rw [List.foldl_cons]
    rw [ih (fun x hx => h x (List.mem_cons_of_mem c hx))]
    exact fsGet_fsSet_ne (h c (List.mem_cons_self c l))

theorem runStage1_cached {O : Oracles} {fs : FS} {v : Nat}
    (h : fsExists fs (cacheDirOf O v ++ "/audio.wav") = true) :
    runStage1 O fs v = ⟨fs, false⟩ := by
  simp [runStage1, h]

theorem runStage2_cached {O : Oracles} {fs : FS} {v : Nat}
    (ht : fsExists fs (cacheDirOf O v ++ "/transcript.txt") = true)
    (hj : fsExists fs (cacheDirOf O v ++ "/transcript.json") = true) :
    runStage2 O fs v = ⟨fs, false⟩ := by
  simp [runStage2, ht, hj]

theorem runStage3_cached {O : Oracles} {fs : FS} {v : Nat}
    (h : fsExists fs (cacheDirOf O v ++ "/events.json") = true) :
    runStage3 O fs v = ⟨fs, false⟩ := by
  simp [runStage3, h]

theorem runStage4_cached {O : Oracles} {fs : FS} {v : Nat} {evs : List EventRec}
    (h : (listdir fs (cacheDirOf O v ++ "/clips")).isEmpty = false) :
    runStage4 O fs v evs =
      (⟨fs, false⟩,
        ((sortStrings (listdir fs (cacheDirOf O v ++ "/clips"))).filter
            (fun f => endsWithStr ".mp4" f)).map
          (fun f => (cacheDirOf O v ++ "/clips") ++ "/" ++ f)) := by
  simp [runStage4, h]

theorem runStage5_cached {O : Oracles} {fs : FS} {v : Nat} {clips : List String}
    (h : fsExists fs (cacheDirOf O v ++ "/summary.mp4") = true) :
    runStage5 O fs v clips = ⟨fs, false⟩ := by
  simp [runStage5, h]

theorem runStage5_fsGet_ne {O : Oracles} {fs : FS} {v : Nat} {clips : List String}
    {q : String} (h : cacheDirOf O v ++ "/summary.mp4" ≠ q) :
    fsGet (runStage5 O fs v clips).fs q = fsGet fs q := by
  unfold runStage5
  by_cases hs : fsExists fs (cacheDirOf O v ++ "/summary.mp4") = true
  · rw [if_pos hs]
  · rw [if_neg hs]
    cases clips with
    | nil => rfl
    | cons c cs =>
      simp only []
      cases hso : O.stitchOracle v (c :: cs) with
      | none => rfl
      | some d =>
        simp only [hso]
        exact fsGet_fsSet_ne h

theorem runStage5_listdir {O : Oracles} {fs : FS} {v : Nat} {clips : List String}
    {dir : String} (h : childNameOpt dir (cacheDirOf O v ++ "/summary.mp4") = none) :
    listdir (runStage5 O fs v clips).fs dir = listdir fs dir := by
  unfold runStage5
  by_cases hs : fsExists fs (cacheDirOf O v ++ "/summary.mp4") = true
  · rw [if_pos hs]
  · rw [if_neg hs]
    cases clips with
    | nil => rfl
    | cons c cs =>
      simp only []
      cases hso : O.stitchOracle v (c :: cs) with
      | none => rfl
      | some d =>
        simp only [hso]
        exact listdir_fsSet_none h

theorem runStage4_fsGet_events (O : Oracles) (fs : FS) (v : Nat) (evs : List EventRec) :
    fsGet (runStage4 O fs v evs).1.fs (cacheDirOf O v ++ "/events.json") =
      fsGet fs (cacheDirOf O v ++ "/events.json") := by
  by_cases h : (listdir fs (cacheDirOf O v ++ "/clips")).isEmpty = true
  · simp only [runStage4, h, if_true]
    apply fsGet_foldl_writes_ne
    intro c _
    exact clipPath_ne_suffix (cacheDirOf O v) c.filename 1 (by omega) (by decide)
  · rw [runStage4_cached (by simpa using h)]

theorem loadEvents_congr {fs1 fs2 : FS} {cd : String}
    (h : fsGet fs1 (cd ++ "/events.json") = fsGet fs2 (cd ++ "/events.json")) :
    loadEvents fs1 cd = loadEvents fs2 cd := by
  unfold loadEvents
  rw [h]

theorem runStage4_snd (O : Oracles) (fs : FS) (v : Nat) (evs : List EventRec) :
    (runStage4 O fs v evs).2 =
      ((sortStrings (listdir (runStage4 O fs v evs).1.fs (cacheDirOf O v ++ "/clips"))).filter
          (fun f => endsWithStr ".mp4" f)).map
        (fun f => (cacheDirOf O v ++ "/clips") ++ "/" ++ f) := rfl

/-- C9: the cache key of `run_pipeline` is `uploads/cache/<content hash>`,
computed from the video bytes only — the task identifier never enters any
cache path — so a second run on byte-identical content, under any other
task identifier, addresses the same cache entry; when the first run has
left every stage artifact in the cache, the second run takes the cache
branch of every stage (`ran` is all `false`), performs no writes
(the filesystem is returned unchanged), and returns exactly the same
output paths, events and clip list as the first run. -/
theorem claim_C9_rerun_cache (O : Oracles) (fs0 : FS) (v : Nat) (tid1 tid2 : String)
    (fs1 : FS) (r1 : RunPaths)
    (h1 : run_pipeline O fs0 v tid1 = .ok (fs1, r1))
    (hc : allCached (cacheDirOf O v) fs1 = true) :
    run_pipeline O fs1 v tid2 =
      .ok (fs1, { r1 with ran := [false, false, false, false, false] }) ∧
    r1.cacheDir = "uploads/cache/" ++ O.hashFn v := by
  unfold allCached at hc
  simp only [Bool.and_eq_true] at hc
  obtain ⟨⟨⟨⟨⟨hA, hT⟩, hJ⟩, hE⟩, hCl⟩, hS⟩ := hc
  have hCl' : (listdir fs1 (cacheDirOf O v ++ "/clips")).isEmpty = false := by
    simpa using hCl
  unfold run_pipeline at h1
  simp only [] at h1
  cases hL : loadEvents (runStage3 O (runStage2 O (runStage1 O fs0 v).fs v).fs v).fs
      (cacheDirOf O v) with
  | error e => rw [hL] at h1; exact absurd h1 (by simp)
  | ok evs =>
    rw [hL] at h1
    simp only [Except.ok.injEq, Prod.mk.injEq] at h1
    obtain ⟨hfs1, hr1⟩ := h1
    have hFev : fsGet fs1 (cacheDirOf O v ++ "/events.json") =
        fsGet (runStage3 O (runStage2 O (runStage1 O fs0 v).fs v).fs v).fs
          (cacheDirOf O v ++ "/events.json") := by
      rw [← hfs1]
      rw [runStage5_fsGet_ne (cdAppend_ne _ 1 (by decide))]
      exact runStage4_fsGet_events O _ v evs
    have hL2 : loadEvents fs1 (cacheDirOf O v) = .ok evs :=
      (loadEvents_congr hFev).trans hL
    have hld : listdir fs1 (cacheDirOf O v ++ "/clips") =
        listdir
          (runStage4 O (runStage3 O (runStage2 O (runStage1 O fs0 v).fs v).fs v).fs v evs).1.fs
          (cacheDirOf O v ++ "/clips") := by
      rw [← hfs1]
      exact runStage5_listdir (childNameOpt_summary_none _)
    constructor
    · simp only [run_pipeline, runStage1_cached hA, runStage2_cached hT hJ,
        runStage3_cached hE, hL2, runStage4_cached hCl', runStage5_cached hS]
      rw [← hr1]
      simp only [Except.ok.injEq, Prod.mk.injEq, RunPaths.mk.injEq, true_and, and_true]
      rw [runStage4_snd, ← hld]
    · rw [← hr1]
      rfl

/-- C9 witness: a concrete first run on an empty filesystem populates the
cache; the second run, under a different task identifier, returns the same
filesystem and the same result with every stage taken from the cache. -/
theorem claim_C9_witness :
    ∃ (fs1 : FS) (r1 : RunPaths),
      run_pipeline demoOracles [] 0 "task-a" = .ok (fs1, r1) ∧
      allCached (cacheDirOf demoOracles 0) fs1 = true ∧
      (run_pipeline demoOracles fs1 0 "task-b" =
          .ok (fs1, { r1 with ran := [false, false, false, false, false] }) ∧
        r1.cacheDir = "uploads/cache/" ++ demoOracles.hashFn 0) := by
  refine ⟨_, _, rfl, by decide,
    claim_C9_rerun_cache demoOracles [] 0 "task-a" "task-b" _ _ rfl (by decide)⟩
